import Mathlib

/-!
Verification of the tree-view widget wrapper (`src/wingui/TreeCtrl.cpp`).

The embedding models:
- tree nodes (`TNode`) with pointer identity as a `Nat` (0 plays the role of
  a null pointer), checked/expanded flags and a list of children;
- the handle/item registry `insertedItems : List (Nat × Nat)` of
  (TreeItem*, HTREEITEM) pairs, with both lookups as the linear scans of
  `GetHandleByTreeItem` / `GetTreeItemByHandle`;
- population (`PopulateTree` / `PopulateTreeItem` / `insertItem`): the native
  control is modelled as a fresh-handle allocator (a counter), each
  `TreeView_InsertItem` call returning the next nonzero handle;
- the state translation `SetTreeItemState` over a native 32-bit state word,
  with the unsigned wraparound of `(uState >> 12) - 1` made explicit;
- the item-state write `FillTVITEM` (expanded bit, checkbox state image
  index 1/2);
- the `WM_NOTIFY` dispatcher as a function from the hook configuration and
  the notification payload to the list of owner-hook invocations it performs,
  in order;
- the drag-end transition `DragEnd` over an explicit drag-session state.
-/

namespace Sumatra

/-- Native state bit `TVIS_SELECTED` (0x0002). -/
def TVIS_SELECTED : Nat := 2

/-- Native state bit `TVIS_EXPANDED` (0x0020). -/
def TVIS_EXPANDED : Nat := 32

/-- `TVHT_ONITEM = TVHT_ONITEMICON | TVHT_ONITEMLABEL | TVHT_ONITEMSTATEICON`
(0x0002 | 0x0004 | 0x0040 = 0x0046). -/
def TVHT_ONITEM : Nat := 70

/-- 2^32, the modulus of `UINT` arithmetic. -/
def UINT_MOD : Nat := 4294967296

/-- An application tree node: pointer identity (`id`, nonzero for real
nodes), the checked and expanded flags the model reports, and the children
list. This is the external `TreeItem` as far as the wrapper reads it. -/
inductive TNode where
  | mk (id : Nat) (isChecked : Bool) (isExpanded : Bool)
      (children : List TNode)

/-- Pointer identity of a node. -/
def TNode.id : TNode → Nat
  | .mk i _ _ _ => i

/-- Checked flag of a node (`TreeItem::IsChecked`). -/
def TNode.isChecked : TNode → Bool
  | .mk _ c _ _ => c

/-- Expanded flag of a node (`TreeItem::IsExpanded`). -/
def TNode.isExpanded : TNode → Bool
  | .mk _ _ e _ => e

/-- Children of a node (`TreeItem::ChildAt` over `ChildCount`). -/
def TNode.children : TNode → List TNode
  | .mk _ _ _ cs => cs

/-- `TreeCtrl::GetHandleByTreeItem`: linear scan of `insertedItems` for the
first pair whose node component is the queried item; `nullptr` (0) when
absent. -/
def GetHandleByTreeItem : List (Nat × Nat) → Nat → Nat
  | [], _ => 0
  | (i, h) :: rest, item => if i = item then h else GetHandleByTreeItem rest item

/-- `TreeCtrl::GetTreeItemByHandle`: linear scan of `insertedItems` for the
first pair whose handle component is the queried handle; `nullptr` (0) when
absent. -/
def GetTreeItemByHandle : List (Nat × Nat) → Nat → Nat
  | [], _ => 0
  | (i, h) :: rest, hq => if h = hq then i else GetTreeItemByHandle rest hq

/-- One step of `PopulateTree`/`PopulateTreeItem`: walk a forest in model
order; for each node, `insertItem` obtains a fresh nonzero handle from the
native control (modelled as `counter + 1`), the pair is appended to
`insertedItems`, and the node's children are populated before the next
sibling. State is `(insertedItems, handle counter)`. -/
def populateForest : List TNode → List (Nat × Nat) × Nat → List (Nat × Nat) × Nat
  | [], st => st
  | TNode.mk i _ _ cs :: rest, st =>
    populateForest rest (populateForest cs (st.1 ++ [(i, st.2 + 1)], st.2 + 1))

/-- The node identities of a forest in the order `PopulateTree` visits them:
each node before its children, children before later siblings. -/
def preorderIds : List TNode → List Nat
  | [] => []
  | TNode.mk i _ _ cs :: rest => i :: (preorderIds cs ++ preorderIds rest)

/-- Occurrence of a node in a model forest: as a root, further along the
root list, or anywhere inside the children of a root. Every parent the
population walk visits occurs in this sense. -/
inductive OccursIn (t : TNode) : List TNode → Prop
  | here (rest : List TNode) : OccursIn t (t :: rest)
  | there (c : TNode) (rest : List TNode) : OccursIn t rest → OccursIn t (c :: rest)
  | inChild (c : TNode) (rest : List TNode) : OccursIn t c.children → OccursIn t (c :: rest)

/-- The wrapper state the registry claims need: the installed model, the
`insertedItems` registry and the native control's handle counter. -/
structure CtrlState where
  treeModel : Option (List TNode) := none
  insertedItems : List (Nat × Nat) := []
  nextHandle : Nat := 0

/-- `TreeCtrl::SetTreeModel`: reset `insertedItems`, delete all native
items, then `PopulateTree` the new model. -/
def SetTreeModel (tm : List TNode) (s : CtrlState) : CtrlState :=
  let r := populateForest tm ([], s.nextHandle)
  { treeModel := some tm, insertedItems := r.1, nextHandle := r.2 }

/-- `TreeCtrl::Clear`: null the model and reset `insertedItems` (the native
item deletion and redraw discipline have no registry-visible effect). -/
def Clear (s : CtrlState) : CtrlState :=
  { s with treeModel := none, insertedItems := [] }

/-- The application-level item state record (`TreeItemState`). -/
structure TreeItemState where
  isExpanded : Bool := false
  isSelected : Bool := false
  isChecked : Bool := false
  nChildren : Nat := 0

/-- `SetTreeItemState(UINT uState, TreeItemState& state)`:
`isExpanded`/`isSelected` from the dedicated bits, and
`UINT n = (uState >> 12) - 1; state.isChecked = n != 0;` — the subtraction
is unsigned 32-bit, so it wraps when the state image index is 0. Updates
the given record in place, leaving `nChildren` untouched. -/
def setTreeItemState (uState : Nat) (s : TreeItemState) : TreeItemState :=
  { s with
    isExpanded := (uState &&& TVIS_EXPANDED) != 0
    isSelected := (uState &&& TVIS_SELECTED) != 0
    isChecked := ((uState >>> 12) + (UINT_MOD - 1)) % UINT_MOD != 0 }

/-- The state word `FillTVITEM` writes for an item: the `TVIS_EXPANDED` bit
when the node is expanded, and under checkbox mode
`INDEXTOSTATEIMAGEMASK(isChecked ? 2 : 1)`, i.e. the state image index
shifted to bits 12–15. -/
def fillItemStateWord (withCheckboxes : Bool) (ti : TNode) : Nat :=
  let state := if ti.isExpanded then TVIS_EXPANDED else 0
  if withCheckboxes then
    let imgIdx : Nat := if ti.isChecked then 2 else 1
    state ||| (imgIdx <<< 12)
  else state

/-- Notification code `TVN_GETINFOTIPW` (`TVN_FIRST - 58`, as unsigned). -/
def TVN_GETINFOTIP : Nat := 4294966838

/-- Notification code `NM_CUSTOMDRAW` (`NM_FIRST - 12`, as unsigned). -/
def NM_CUSTOMDRAW : Nat := 4294967284

/-- Notification code `TVN_SELCHANGEDW` (`TVN_FIRST - 51`, as unsigned). -/
def TVN_SELCHANGED : Nat := 4294966845

/-- Notification code `TVN_ITEMCHANGEDW` (`TVN_FIRST - 19`, as unsigned). -/
def TVN_ITEMCHANGED : Nat := 4294966877

/-- Notification code `TVN_ITEMEXPANDEDW` (`TVN_FIRST - 55`, as unsigned). -/
def TVN_ITEMEXPANDED : Nat := 4294966841

/-- Notification code `NM_CLICK` (`NM_FIRST - 2`, as unsigned). -/
def NM_CLICK : Nat := 4294967294

/-- Notification code `NM_DBLCLK` (`NM_FIRST - 3`, as unsigned). -/
def NM_DBLCLK : Nat := 4294967293

/-- Notification code `TVN_KEYDOWN` (`TVN_FIRST - 12`, as unsigned). -/
def TVN_KEYDOWN : Nat := 4294966884

/-- Notification code `TVN_GETDISPINFOW` (`TVN_FIRST - 52`, as unsigned). -/
def TVN_GETDISPINFO : Nat := 4294966844

/-- Notification code `TVN_BEGINDRAGW` (`TVN_FIRST - 56`, as unsigned). -/
def TVN_BEGINDRAG : Nat := 4294966840

/-- Selection-change action `TVC_BYMOUSE`. -/
def TVC_BYMOUSE : Nat := 1

/-- Selection-change action `TVC_BYKEYBOARD`. -/
def TVC_BYKEYBOARD : Nat := 2

/-- Expand action `TVE_COLLAPSE`. -/
def TVE_COLLAPSE : Nat := 1

/-- Expand action `TVE_EXPAND`. -/
def TVE_EXPAND : Nat := 2

/-- Which owner callback slots are registered. `onTreeNotify` additionally
carries whether the generic hook marks the event handled (`didHandle`). -/
structure HookCfg where
  onTreeNotify : Option Bool := none
  onGetTooltip : Bool := false
  onTreeItemCustomDraw : Bool := false
  onTreeSelectionChanged : Bool := false
  onTreeItemChanged : Bool := false
  onTreeItemExpanded : Bool := false
  onTreeClick : Bool := false
  onTreeKeyDown : Bool := false
  onTreeGetDispInfo : Bool := false
  onTreeItemDragStartEnd : Bool := false

/-- The notification payload, flattened: the fields of the various
`NMTREEVIEWW`/`NMTVCUSTOMDRAW`/`NMTVITEMCHANGE`/… structures the dispatcher
reads, plus the outcome the native hit test would report for the click
branch's cursor position. -/
structure Notif where
  code : Nat := 0
  hItem : Nat := 0
  itemOldH : Nat := 0
  itemNewH : Nat := 0
  action : Nat := 0
  uStateOld : Nat := 0
  uStateNew : Nat := 0
  hitFlags : Nat := 0
  hitItem : Nat := 0
  keyCode : Nat := 0

/-- One owner-hook invocation performed by the dispatcher, with the data of
the event record it receives (0 stands for a null `TreeItem*`). -/
inductive Ev where
  | treeNotify
  | getTooltip (treeItem : Nat)
  | customDraw (treeItem : Nat)
  | selChanged (prevSelectedItem selectedItem : Nat) (byKeyboard byMouse : Bool)
  | itemChanged (treeItem : Nat) (expandedChanged checkedChanged selectedChanged : Bool)
  | itemExpanded (treeItem : Nat)
  | click (isDblClick : Bool) (treeItem : Nat)
  | keyDown (keyCode : Nat)
  | getDispInfo (treeItem : Nat)
  | dragStart (draggedItem : Nat)
deriving DecidableEq

/-- The code-specific part of `TreeCtrl::HandleWM_NOTIFY`: the chain of
`if (code == …)` branches, each returning after invoking its owner hook (or
returning early when the hook is not registered, or in the branch-specific
absence cases). The returned list holds the invocations performed, in
order. -/
def dispatchCode (cfg : HookCfg) (regs : List (Nat × Nat)) (n : Notif) : List Ev :=
  if n.code = TVN_GETINFOTIP then
    if cfg.onGetTooltip then [Ev.getTooltip (GetTreeItemByHandle regs n.hItem)] else []
  else if n.code = NM_CUSTOMDRAW then
    if cfg.onTreeItemCustomDraw then
      if n.hItem ≠ 0 then
        if GetTreeItemByHandle regs n.hItem = 0 then []
        else [Ev.customDraw (GetTreeItemByHandle regs n.hItem)]
      else [Ev.customDraw 0]
    else []
  else if n.code = TVN_SELCHANGED then
    if cfg.onTreeSelectionChanged then
      [Ev.selChanged (GetTreeItemByHandle regs n.itemOldH) (GetTreeItemByHandle regs n.itemNewH)
        (n.action == TVC_BYKEYBOARD) (n.action == TVC_BYMOUSE)]
    else []
  else if n.code = TVN_ITEMCHANGED then
    if cfg.onTreeItemChanged then
      [Ev.itemChanged (GetTreeItemByHandle regs n.hItem)
        ((setTreeItemState n.uStateOld {}).isExpanded != (setTreeItemState n.uStateNew {}).isExpanded)
        ((setTreeItemState n.uStateOld {}).isChecked != (setTreeItemState n.uStateNew {}).isChecked)
        ((setTreeItemState n.uStateOld {}).isSelected != (setTreeItemState n.uStateNew {}).isSelected)]
    else []
  else if n.code = TVN_ITEMEXPANDED then
    if cfg.onTreeItemExpanded then
      if n.action = TVE_COLLAPSE ∨ n.action = TVE_EXPAND then
        [Ev.itemExpanded (GetTreeItemByHandle regs n.itemNewH)]
      else []
    else []
  else if n.code = NM_CLICK ∨ n.code = NM_DBLCLK then
    if cfg.onTreeClick then
      [Ev.click (n.code == NM_DBLCLK)
        (if n.hitFlags &&& TVHT_ONITEM ≠ 0 then GetTreeItemByHandle regs n.hitItem else 0)]
    else []
  else if n.code = TVN_KEYDOWN then
    if cfg.onTreeKeyDown then [Ev.keyDown n.keyCode] else []
  else if n.code = TVN_GETDISPINFO then
    if cfg.onTreeGetDispInfo then [Ev.getDispInfo (GetTreeItemByHandle regs n.hItem)] else []
  else if n.code = TVN_BEGINDRAG then
    if cfg.onTreeItemDragStartEnd then
      [Ev.dragStart (GetTreeItemByHandle regs n.itemNewH)]
    else []
  else []

/-- `TreeCtrl::HandleWM_NOTIFY`: if the generic `onTreeNotify` hook is
registered it is invoked first, and the dispatcher returns immediately when
the hook sets `didHandle`; otherwise the code-specific chain runs. -/
def handleWMNotify (cfg : HookCfg) (regs : List (Nat × Nat)) (n : Notif) : List Ev :=
  match cfg.onTreeNotify with
  | some didHandle =>
    if didHandle then [Ev.treeNotify] else Ev.treeNotify :: dispatchCode cfg regs n
  | none => dispatchCode cfg regs n

/-- The drag-session state together with the window-system resources the
drag machinery touches: mouse capture, the two temporary parent-window
message handlers, and the native drop-highlight. -/
structure DragState where
  isDragging : Bool := false
  draggedItem : Nat := 0
  dragTargetItem : Nat := 0
  captureHeld : Bool := false
  moveHandlerInstalled : Bool := false
  upHandlerInstalled : Bool := false
  dropHilite : Nat := 0

/-- `TreeCtrl::DragEnd`, step by step: read the drop-highlighted handle; if
one exists, resolve it into `dragTargetItem` and notify the owner
(`isStart = false`); then end the drag visual, clear the drop highlight,
release capture, reset the session fields, and unregister both temporary
parent-window handlers. The Bool result records whether the owner
drag-start/end callback was invoked. -/
def DragEnd (regs : List (Nat × Nat)) (s : DragState) : DragState × Bool :=
  let p :=
    if s.dropHilite ≠ 0 then
      ({ s with dragTargetItem := GetTreeItemByHandle regs s.dropHilite }, true)
    else (s, false)
  let s2 := { p.1 with dropHilite := 0 }
  let s3 := { s2 with captureHeld := false }
  let s4 := { s3 with isDragging := false, draggedItem := 0, dragTargetItem := 0 }
  let s5 := { s4 with moveHandlerInstalled := false, upHandlerInstalled := false }
  (s5, p.2)

/-- `TreeCtrl::GetItemAt`: negative coordinates return a null node before
any native call; otherwise the native hit test runs and the item is
resolved only when the flags report the point on an item. The Bool result
records whether the native hit test was consulted. -/
def GetItemAt (hitTest : Int → Int → Nat × Nat) (regs : List (Nat × Nat))
    (x y : Int) : Nat × Bool :=
  if x < 0 ∨ y < 0 then (0, false)
  else
    let r := hitTest x y
    if r.1 &&& TVHT_ONITEM = 0 then (0, true)
    else (GetTreeItemByHandle regs r.2, true)

/-- The handle counter never decreases across population. -/
theorem populateForest_counter_mono (cs : List TNode) (st : List (Nat × Nat) × Nat) :
    st.2 ≤ (populateForest cs st).2 := by
  induction cs, st using populateForest.induct with
  | case1 st => simp [populateForest]
  | case2 i c e cs rest st ih1 ih2 =>
    simp only [populateForest]
    omega

/-- Population appends a block of new entries whose node components are the
pre-order identities of the forest and whose handles are fresh (strictly
above the incoming counter, bounded by the outgoing one) and strictly
increasing in insertion order. -/
theorem populateForest_spec (cs : List TNode) (st : List (Nat × Nat) × Nat) :
    ∃ t, (populateForest cs st).1 = st.1 ++ t ∧
      t.map Prod.fst = preorderIds cs ∧
      (∀ p ∈ t, st.2 < p.2 ∧ p.2 ≤ (populateForest cs st).2) ∧
      t.Pairwise (fun a b => a.2 < b.2) := by
  induction cs, st using populateForest.induct with
  | case1 st => exact ⟨[], by simp [populateForest, preorderIds]⟩
  | case2 i c e cs rest st ih1 ih2 =>
    obtain ⟨t1, he1, hm1, hb1, hp1⟩ := ih1
    obtain ⟨t2, he2, hm2, hb2, hp2⟩ := ih2
    have hmono1 := populateForest_counter_mono cs (st.1 ++ [(i, st.2 + 1)], st.2 + 1)
    have hmono2 :=
      populateForest_counter_mono rest (populateForest cs (st.1 ++ [(i, st.2 + 1)], st.2 + 1))
    refine ⟨(i, st.2 + 1) :: (t1 ++ t2), ?_, ?_, ?_, ?_⟩
    · simp only [populateForest]
      rw [he2, he1]
      simp
    · simp [hm1, hm2, preorderIds]
    · intro p hp
      simp only [populateForest]
      rcases List.mem_cons.mp hp with h | h
      · subst h
        simp at hmono1 ⊢
        omega
      · rcases List.mem_append.mp h with h | h
        · have := hb1 p h
          simp at this ⊢
          omega
        · have := hb2 p h
          simp at this ⊢
          omega
    · refine List.Pairwise.cons ?_ (List.pairwise_append.mpr ⟨hp1, hp2, ?_⟩)
      · intro p hp
        rcases List.mem_append.mp hp with h | h
        · have := hb1 p h; simp at this; omega
        · have := hb2 p h; simp at this ⊢; omega
      · intro a ha b hb
        have h1 := hb1 a ha
        have h2 := hb2 b hb
        simp at h1 h2
        omega

/-- The node components of the registry after `SetTreeModel` are exactly the
pre-order identities of the installed model. -/
theorem setTreeModel_ids (tm : List TNode) (s : CtrlState) :
    ((SetTreeModel tm s).insertedItems).map Prod.fst = preorderIds tm := by
  obtain ⟨t, he, hm, _, _⟩ := populateForest_spec tm ([], s.nextHandle)
  simp [SetTreeModel, he, hm]

/-- A membership-based specification of the `GetHandleByTreeItem` scan: on a
registry with pairwise-distinct node components, a stored pair is found. -/
theorem getHandle_eq_of_mem (regs : List (Nat × Nat)) (N h : Nat)
    (hmem : (N, h) ∈ regs) (hnd : (regs.map Prod.fst).Nodup) :
    GetHandleByTreeItem regs N = h := by
  induction regs with
  | nil => simp at hmem
  | cons p rest ih =>
    obtain ⟨i, hh⟩ := p
    simp only [List.map_cons, List.nodup_cons, List.mem_map] at hnd
    rcases List.mem_cons.mp hmem with h1 | h1
    · obtain ⟨rfl, rfl⟩ := Prod.mk.injEq .. ▸ h1
      simp [GetHandleByTreeItem]
    · have hne : i ≠ N := by
        intro he
        exact hnd.1 ⟨(N, h), h1, by simp [he]⟩
      simp [GetHandleByTreeItem, hne, ih h1 hnd.2]

/-- A membership-based specification of the `GetTreeItemByHandle` scan: on a
registry with pairwise-distinct handle components, a stored pair is found. -/
theorem getItem_eq_of_mem (regs : List (Nat × Nat)) (N h : Nat)
    (hmem : (N, h) ∈ regs) (hnd : (regs.map Prod.snd).Nodup) :
    GetTreeItemByHandle regs h = N := by
  induction regs with
  | nil => simp at hmem
  | cons p rest ih =>
    obtain ⟨i, hh⟩ := p
    simp only [List.map_cons, List.nodup_cons, List.mem_map] at hnd
    rcases List.mem_cons.mp hmem with h1 | h1
    · obtain ⟨rfl, rfl⟩ := Prod.mk.injEq .. ▸ h1
      simp [GetTreeItemByHandle]
    · have hne : hh ≠ h := by
        intro he
        exact hnd.1 ⟨(N, h), h1, by simp [he]⟩
      simp [GetTreeItemByHandle, hne, ih h1 hnd.2]

/-- The registry installed by `SetTreeModel` pairs the pre-order nodes with
handles that are pairwise distinct. -/
theorem setTreeModel_regs (tm : List TNode) (s : CtrlState) :
    ((SetTreeModel tm s).insertedItems).map Prod.fst = preorderIds tm ∧
    (((SetTreeModel tm s).insertedItems).map Prod.snd).Nodup := by
  obtain ⟨t, he, hm, _, hp⟩ := populateForest_spec tm ([], s.nextHandle)
  have hregs : (SetTreeModel tm s).insertedItems = t := by simp [SetTreeModel, he]
  refine ⟨by simp [hregs, hm], ?_⟩
  rw [hregs]
  exact (hp.map Prod.snd (fun a b hab => hab)).imp Nat.ne_of_lt

/-- C1. For every node `N` inserted by installing a model whose nodes are
pairwise distinct, `GetTreeItemByHandle (GetHandleByTreeItem N) = N`, and
looking up the handle of that node returns the same handle. -/
theorem c1_registry_roundtrip (tm : List TNode) (s : CtrlState) (N : Nat)
    (hnd : (preorderIds tm).Nodup) (hN : N ∈ preorderIds tm) :
    GetTreeItemByHandle (SetTreeModel tm s).insertedItems
        (GetHandleByTreeItem (SetTreeModel tm s).insertedItems N) = N ∧
    GetHandleByTreeItem (SetTreeModel tm s).insertedItems
        (GetTreeItemByHandle (SetTreeModel tm s).insertedItems
          (GetHandleByTreeItem (SetTreeModel tm s).insertedItems N)) =
      GetHandleByTreeItem (SetTreeModel tm s).insertedItems N := by
  obtain ⟨hfst, hsnd⟩ := setTreeModel_regs tm s
  have hndf : (((SetTreeModel tm s).insertedItems).map Prod.fst).Nodup := hfst ▸ hnd
  have hNf : N ∈ ((SetTreeModel tm s).insertedItems).map Prod.fst := hfst ▸ hN
  obtain ⟨p, hpmem, hpfst⟩ := List.mem_map.mp hNf
  obtain ⟨N', h⟩ := p
  cases hpfst
  have h1 : GetHandleByTreeItem (SetTreeModel tm s).insertedItems N' = h :=
    getHandle_eq_of_mem _ _ _ hpmem hndf
  have h2 : GetTreeItemByHandle (SetTreeModel tm s).insertedItems h = N' :=
    getItem_eq_of_mem _ _ _ hpmem hsnd
  rw [h1, h2, h1]
  exact ⟨rfl, rfl⟩

/-- C1 witness: concrete model with one root of identity 1, evaluated. -/
theorem c1_registry_roundtrip_witness :
    (preorderIds [TNode.mk 1 false false []]).Nodup ∧
    1 ∈ preorderIds [TNode.mk 1 false false []] ∧
    (GetTreeItemByHandle (SetTreeModel [TNode.mk 1 false false []] {}).insertedItems
        (GetHandleByTreeItem (SetTreeModel [TNode.mk 1 false false []] {}).insertedItems 1) = 1 ∧
      GetHandleByTreeItem (SetTreeModel [TNode.mk 1 false false []] {}).insertedItems
          (GetTreeItemByHandle (SetTreeModel [TNode.mk 1 false false []] {}).insertedItems
            (GetHandleByTreeItem (SetTreeModel [TNode.mk 1 false false []] {}).insertedItems 1)) =
        GetHandleByTreeItem (SetTreeModel [TNode.mk 1 false false []] {}).insertedItems 1) :=
  ⟨by simp [preorderIds], by simp [preorderIds],
    c1_registry_roundtrip [TNode.mk 1 false false []] {} 1 (by simp [preorderIds])
      (by simp [preorderIds])⟩

/-- C2 counterexample: at `uState = 0` the 4-bit state image index
(bits 12–15) is 0, so the claim says `isChecked = false`; but the code's
`(uState >> 12) - 1` wraps to `0xFFFFFFFF` in unsigned arithmetic, which is
nonzero, so the translation yields `isChecked = true`. -/
theorem c2_counterexample :
    ¬ ((setTreeItemState 0 {}).isChecked = true ↔ (0 >>> 12) &&& 15 ≠ 0) := by
  decide

/-- C2 amended: for every 32-bit state word, the translation sets
`isChecked` to true if and only if the shifted field `uState >> 12` differs
from 1: index 1 (unchecked image) gives false, while index 0 (no checkbox
image, via unsigned wraparound of the decrement) and every index ≥ 2 give
true. -/
theorem c2_amended (uState : Nat) (hu : uState < 4294967296) (s : TreeItemState) :
    (setTreeItemState uState s).isChecked = true ↔ uState >>> 12 ≠ 1 := by
  have h : uState >>> 12 = uState / 4096 := by
    simp [Nat.shiftRight_eq_div_pow]
  simp only [setTreeItemState, UINT_MOD, h, bne_iff_ne, ne_eq]
  omega

/-- C2 amended witness: at `uState = 0x2000` (state image index 2) the
translation reports checked. -/
theorem c2_amended_witness :
    8192 < 4294967296 ∧ ((setTreeItemState 8192 {}).isChecked = true ↔ 8192 >>> 12 ≠ 1) :=
  ⟨by decide, c2_amended 8192 (by decide) {}⟩

/-- C7. After `Clear()`, the registry holds no entries and
`GetHandleByTreeItem` returns the null handle for every node. -/
theorem c7_clear_empties (s : CtrlState) (N : Nat) :
    GetHandleByTreeItem (Clear s).insertedItems N = 0 ∧
    (Clear s).insertedItems = [] := by
  exact ⟨rfl, rfl⟩

/-- C8. Writing an item state under checkbox mode (state image index 2 for
checked, 1 for unchecked, plus the `TVIS_EXPANDED` bit) and translating the
word back recovers both flags, for every combination of checked and
expanded. -/
theorem c8_state_roundtrip (c e : Bool) (s : TreeItemState) :
    (setTreeItemState (fillItemStateWord true (TNode.mk 1 c e [])) s).isChecked = c ∧
    (setTreeItemState (fillItemStateWord true (TNode.mk 1 c e [])) s).isExpanded = e := by
  cases c <;> cases e <;> exact ⟨rfl, rfl⟩


/-- C4. `DragEnd` always returns the session to Idle — `isDragging` false,
`draggedItem` and `dragTargetItem` null, capture released, both temporary
parent-window handlers uninstalled — and the owner drag-start/end callback
is invoked exactly when a drop-highlighted item exists at that moment. -/
theorem c4_dragend_idle (regs : List (Nat × Nat)) (s : DragState) :
    (DragEnd regs s).1.isDragging = false ∧
    (DragEnd regs s).1.draggedItem = 0 ∧
    (DragEnd regs s).1.dragTargetItem = 0 ∧
    (DragEnd regs s).1.captureHeld = false ∧
    (DragEnd regs s).1.moveHandlerInstalled = false ∧
    (DragEnd regs s).1.upHandlerInstalled = false ∧
    ((DragEnd regs s).2 = true ↔ s.dropHilite ≠ 0) := by
  by_cases h : s.dropHilite = 0 <;> simp [DragEnd, h]

/-- C5. When the generic `onTreeNotify` hook is registered, it is invoked
before any code-specific handling, and if it marks the event handled the
dispatcher performs no other invocation. -/
theorem c5_generic_hook_first (cfg : HookCfg) (regs : List (Nat × Nat)) (n : Notif)
    (b : Bool) (hreg : cfg.onTreeNotify = some b) :
    (handleWMNotify cfg regs n).head? = some Ev.treeNotify ∧
    (b = true → handleWMNotify cfg regs n = [Ev.treeNotify]) := by
  cases b <;> simp [handleWMNotify, hreg]

/-- C5 witness: generic hook registered and marking the event handled, on a
custom-draw notification with the custom-draw hook also registered. -/
theorem c5_generic_hook_first_witness :
    ({ onTreeNotify := some true, onTreeItemCustomDraw := true : HookCfg }.onTreeNotify
        = some true) ∧
    ((handleWMNotify { onTreeNotify := some true, onTreeItemCustomDraw := true } []
        { code := NM_CUSTOMDRAW, hItem := 0 }).head? = some Ev.treeNotify ∧
      (true = true → handleWMNotify { onTreeNotify := some true, onTreeItemCustomDraw := true } []
        { code := NM_CUSTOMDRAW, hItem := 0 } = [Ev.treeNotify])) :=
  ⟨rfl, c5_generic_hook_first { onTreeNotify := some true, onTreeItemCustomDraw := true } []
    { code := NM_CUSTOMDRAW, hItem := 0 } true rfl⟩

/-- C6 counterexample: a custom-draw notification whose native item handle
is absent (`dwItemSpec = 0`, the early `CDDS_PREPAINT` phase), with the
owner custom-draw hook registered. The claim says the dispatcher does
nothing; the code skips only the resolution step and still invokes the hook
with a null `treeItem`. -/
theorem c6_customdraw_counterexample :
    handleWMNotify { onTreeItemCustomDraw := true } [] { code := NM_CUSTOMDRAW, hItem := 0 }
        = [Ev.customDraw 0] ∧
    handleWMNotify { onTreeItemCustomDraw := true } [] { code := NM_CUSTOMDRAW, hItem := 0 }
        ≠ [] := by
  decide

/-- C6 amended: on a custom-draw notification with the owner hook
registered (and no generic hook short-circuit), an absent handle leads to
the hook being invoked with no resolved node; a present handle that does
not resolve to a registered node leads to no invocation; a present handle
that resolves leads to the hook receiving that node. -/
theorem c6_customdraw_amended (cfg : HookCfg) (regs : List (Nat × Nat)) (n : Notif)
    (h1 : cfg.onTreeNotify = none) (h2 : cfg.onTreeItemCustomDraw = true)
    (h3 : n.code = NM_CUSTOMDRAW) :
    (n.hItem = 0 → handleWMNotify cfg regs n = [Ev.customDraw 0]) ∧
    (n.hItem ≠ 0 → GetTreeItemByHandle regs n.hItem = 0 →
      handleWMNotify cfg regs n = []) ∧
    (n.hItem ≠ 0 → GetTreeItemByHandle regs n.hItem ≠ 0 →
      handleWMNotify cfg regs n = [Ev.customDraw (GetTreeItemByHandle regs n.hItem)]) := by
  refine ⟨fun hh => ?_, fun hh hr => ?_, fun hh hr => ?_⟩
  · simp [handleWMNotify, dispatchCode, h1, h2, h3, hh, TVN_GETINFOTIP, NM_CUSTOMDRAW]
  · simp [handleWMNotify, dispatchCode, h1, h2, h3, hh, hr, TVN_GETINFOTIP, NM_CUSTOMDRAW]
  · simp [handleWMNotify, dispatchCode, h1, h2, h3, hh, hr, TVN_GETINFOTIP, NM_CUSTOMDRAW]

/-- C6 amended witness: handle 5 registered to node 7; the hook receives
node 7. -/
theorem c6_customdraw_amended_witness :
    (({ onTreeItemCustomDraw := true : HookCfg }).onTreeNotify = none ∧
      ({ onTreeItemCustomDraw := true : HookCfg }).onTreeItemCustomDraw = true ∧
      ({ code := NM_CUSTOMDRAW, hItem := 5 : Notif }).code = NM_CUSTOMDRAW) ∧
    (({ code := NM_CUSTOMDRAW, hItem := 5 : Notif }).hItem ≠ 0 →
      GetTreeItemByHandle [(7, 5)] ({ code := NM_CUSTOMDRAW, hItem := 5 : Notif }).hItem ≠ 0 →
      handleWMNotify { onTreeItemCustomDraw := true } [(7, 5)]
          { code := NM_CUSTOMDRAW, hItem := 5 }
        = [Ev.customDraw (GetTreeItemByHandle [(7, 5)]
            ({ code := NM_CUSTOMDRAW, hItem := 5 : Notif }).hItem)]) :=
  ⟨⟨rfl, rfl, rfl⟩,
    (c6_customdraw_amended { onTreeItemCustomDraw := true } [(7, 5)]
      { code := NM_CUSTOMDRAW, hItem := 5 } rfl rfl rfl).2.2⟩

/-- C9. A click or double-click notification whose cursor position
hit-tests to no item still invokes the registered owner click hook, with a
null resolved node. -/
theorem c9_click_miss_still_invoked (cfg : HookCfg) (regs : List (Nat × Nat)) (n : Notif)
    (h1 : cfg.onTreeNotify = none) (h2 : cfg.onTreeClick = true)
    (h3 : n.code = NM_CLICK ∨ n.code = NM_DBLCLK)
    (h4 : n.hitFlags &&& TVHT_ONITEM = 0) :
    handleWMNotify cfg regs n = [Ev.click (n.code == NM_DBLCLK) 0] := by
  rcases h3 with h3 | h3 <;>
    simp [handleWMNotify, dispatchCode, h1, h2, h3, h4,
      TVN_GETINFOTIP, NM_CUSTOMDRAW, TVN_SELCHANGED, TVN_ITEMCHANGED,
      TVN_ITEMEXPANDED, NM_CLICK, NM_DBLCLK]

/-- C9 witness: a single click at a position whose hit test reports no
item flags; the hook is invoked with a null node. -/
theorem c9_click_miss_still_invoked_witness :
    (({ onTreeClick := true : HookCfg }).onTreeNotify = none ∧
      ({ onTreeClick := true : HookCfg }).onTreeClick = true ∧
      (({ code := NM_CLICK, hitFlags := 1 : Notif }).code = NM_CLICK ∨
        ({ code := NM_CLICK, hitFlags := 1 : Notif }).code = NM_DBLCLK) ∧
      ({ code := NM_CLICK, hitFlags := 1 : Notif }).hitFlags &&& TVHT_ONITEM = 0) ∧
    handleWMNotify { onTreeClick := true } [(7, 5)] { code := NM_CLICK, hitFlags := 1 }
      = [Ev.click (({ code := NM_CLICK, hitFlags := 1 : Notif }).code == NM_DBLCLK) 0] :=
  ⟨⟨rfl, rfl, Or.inl rfl, by decide⟩,
    c9_click_miss_still_invoked { onTreeClick := true } [(7, 5)]
      { code := NM_CLICK, hitFlags := 1 } rfl rfl (Or.inl rfl) (by decide)⟩

/-- C10. Negative coordinates return a null node without consulting the
native hit test; for non-negative coordinates the hit test runs and the
result is null exactly when the reported flags do not include
`TVHT_ONITEM` — assuming the native control only reports on-item hits for
handles registered to (nonnull) nodes. -/
theorem c10_get_item_at (hitTest : Int → Int → Nat × Nat) (regs : List (Nat × Nat))
    (x y : Int)
    (henv : (hitTest x y).1 &&& TVHT_ONITEM ≠ 0 →
      GetTreeItemByHandle regs (hitTest x y).2 ≠ 0) :
    (x < 0 ∨ y < 0 → GetItemAt hitTest regs x y = (0, false)) ∧
    (0 ≤ x → 0 ≤ y →
      (GetItemAt hitTest regs x y).2 = true ∧
      ((GetItemAt hitTest regs x y).1 = 0 ↔ (hitTest x y).1 &&& TVHT_ONITEM = 0)) := by
  constructor
  · intro h
    simp [GetItemAt, h]
  · intro hx hy
    have hneg : ¬ (x < 0 ∨ y < 0) := by omega
    by_cases hfl : (hitTest x y).1 &&& TVHT_ONITEM = 0
    · simp [GetItemAt, hneg, hfl]
    · simp [GetItemAt, hneg, hfl, henv hfl]

/-- C10 witness: handle 5 registered to node 7; hit test reports an
on-item hit at (1, 2), and the item resolves (nonnull). -/
theorem c10_get_item_at_witness :
    (((fun _ _ => (70, 5) : Int → Int → Nat × Nat) 1 2).1 &&& TVHT_ONITEM ≠ 0 →
      GetTreeItemByHandle [(7, 5)] ((fun _ _ => (70, 5) : Int → Int → Nat × Nat) 1 2).2 ≠ 0) ∧
    ((0 : Int) ≤ 1 → (0 : Int) ≤ 2 →
      (GetItemAt (fun _ _ => (70, 5)) [(7, 5)] 1 2).2 = true ∧
      ((GetItemAt (fun _ _ => (70, 5)) [(7, 5)] 1 2).1 = 0 ↔
        ((fun _ _ => (70, 5) : Int → Int → Nat × Nat) 1 2).1 &&& TVHT_ONITEM = 0)) :=
  ⟨fun _ => by decide,
    (c10_get_item_at (fun _ _ => (70, 5)) [(7, 5)] 1 2 (fun _ => by decide)).2⟩

/-- The pre-order listing of a whole subtree (its root's identity followed
by its descendants) appears contiguously inside the pre-order listing of
any forest the subtree occurs in. -/
theorem occurs_infix (t : TNode) (cs : List TNode) (hp : OccursIn t cs) :
    ∃ l₁ l₂, preorderIds cs = l₁ ++ (t.id :: preorderIds t.children) ++ l₂ := by
  induction hp with
  | here rest =>
    refine ⟨[], preorderIds rest, ?_⟩
    cases t with
    | mk i a b tcs => simp [preorderIds, TNode.id, TNode.children]
  | there c rest h ih =>
    obtain ⟨l₁, l₂, he⟩ := ih
    refine ⟨(c.id :: preorderIds c.children) ++ l₁, l₂, ?_⟩
    cases c with
    | mk i a b ccs => simp [preorderIds, TNode.id, TNode.children, he]
  | inChild c rest h ih =>
    obtain ⟨l₁, l₂, he⟩ := ih
    refine ⟨c.id :: l₁, l₂ ++ preorderIds rest, ?_⟩
    cases c with
    | mk i a b ccs =>
      simp [preorderIds, TNode.id, TNode.children] at he ⊢
      simp [he]

/-- Each member of a forest contributes its identity to the pre-order
listing. -/
theorem id_mem_preorder (c : TNode) (cs : List TNode) (h : c ∈ cs) :
    c.id ∈ preorderIds cs := by
  induction cs with
  | nil => simp at h
  | cons d rest ih =>
    rcases List.mem_cons.mp h with h1 | h1
    · subst h1
      cases c with
      | mk i a b ccs => simp [preorderIds, TNode.id]
    · cases d with
      | mk i a b ccs =>
        simp only [preorderIds, List.mem_cons, List.mem_append]
        exact Or.inr (Or.inr (ih h1))

/-- A member of the left part of a concatenation sits at an index below the
left part's length. -/
theorem indexOf_append_left_lt (x : Nat) (a b : List Nat) (hx : x ∈ a) :
    List.indexOf x (a ++ b) < a.length := by
  induction a with
  | nil => simp at hx
  | cons d rest ih =>
    by_cases hdx : d = x
    · subst hdx
      simp [List.indexOf_cons_self]
    · rcases List.mem_cons.mp hx with h1 | h1
      · exact absurd h1.symm hdx
      · have hr := ih h1
        have hstep : List.indexOf x ((d :: rest) ++ b) = List.indexOf x (rest ++ b) + 1 := by
          simp [List.indexOf_cons_ne _ hdx]
        simp only [hstep, List.length_cons]
        omega

/-- A value absent from the left part of a concatenation sits at an index
at least the left part's length. -/
theorem le_indexOf_append_of_not_mem (y : Nat) (a b : List Nat) (hy : y ∉ a) :
    a.length ≤ List.indexOf y (a ++ b) := by
  induction a with
  | nil => simp
  | cons d rest ih =>
    have hdy : d ≠ y := fun h => hy (h ▸ List.mem_cons_self d rest)
    have hyr : y ∉ rest := fun h => hy (List.mem_cons_of_mem _ h)
    have hstep : List.indexOf y ((d :: rest) ++ b) = List.indexOf y (rest ++ b) + 1 := by
      simp [List.indexOf_cons_ne _ hdy]
    have hr := ih hyr
    simp only [hstep, List.length_cons]
    omega

/-- Positions separate across a concatenation: a member of the left part
comes strictly before anything absent from the left part. -/
theorem indexOf_append_lt (x y : Nat) (a b : List Nat) (hx : x ∈ a) (hy : y ∉ a) :
    List.indexOf x (a ++ b) < List.indexOf y (a ++ b) :=
  lt_of_lt_of_le (indexOf_append_left_lt x a b hx) (le_indexOf_append_of_not_mem y a b hy)

/-- The pre-order listing of a forest splits at any member: the member's
identity falls in the left part and the identities of all later members in
the right part. -/
theorem preorder_get_split (cs : List TNode) (i : Nat) (hi : i < cs.length) :
    ∃ A B, preorderIds cs = A ++ B ∧ (cs.get ⟨i, hi⟩).id ∈ A ∧
      ∀ (j : Nat) (hj : j < cs.length), i < j → (cs.get ⟨j, hj⟩).id ∈ B := by
  induction cs generalizing i with
  | nil => simp at hi
  | cons c rest ih =>
    cases i with
    | zero =>
      refine ⟨c.id :: preorderIds c.children, preorderIds rest, ?_, by simp, ?_⟩
      · cases c with
        | mk ci a b ccs => simp [preorderIds, TNode.id, TNode.children]
      · intro j hj hij
        cases j with
        | zero => omega
        | succ j' =>
          have hj' : j' < rest.length := by simpa using hj
          have hg : (c :: rest).get ⟨j' + 1, hj⟩ = rest.get ⟨j', hj'⟩ := rfl
          rw [hg]
          exact id_mem_preorder _ _ (List.get_mem rest j' hj')
    | succ i' =>
      have hi' : i' < rest.length := by simpa using hi
      obtain ⟨A, B, hAB, hmem, hafter⟩ := ih i' hi'
      refine ⟨(c.id :: preorderIds c.children) ++ A, B, ?_, ?_, ?_⟩
      · cases c with
        | mk ci a b ccs => simp [preorderIds, TNode.id, TNode.children, hAB]
      · have hg : (c :: rest).get ⟨i' + 1, hi⟩ = rest.get ⟨i', hi'⟩ := rfl
        rw [hg]
        simp only [List.mem_append]
        exact Or.inr hmem
      · intro j hj hij
        cases j with
        | zero => omega
        | succ j' =>
          have hj' : j' < rest.length := by simpa using hj
          have hg : (c :: rest).get ⟨j' + 1, hj⟩ = rest.get ⟨j', hj'⟩ := rfl
          rw [hg]
          exact hafter j' hj' (by omega)

/-- In a duplicate-free pre-order listing, a parent's identity comes
strictly before each of its children's. -/
theorem preorder_parent_before_child (cs : List TNode) (p : TNode)
    (hnd : (preorderIds cs).Nodup) (hp : OccursIn p cs)
    (i : Nat) (hi : i < p.children.length) :
    List.indexOf p.id (preorderIds cs) <
      List.indexOf (p.children.get ⟨i, hi⟩).id (preorderIds cs) := by
  obtain ⟨l₁, l₂, he⟩ := occurs_infix p cs hp
  have hform : preorderIds cs = (l₁ ++ [p.id]) ++ (preorderIds p.children ++ l₂) := by
    simp [he]
  have hx : p.id ∈ l₁ ++ [p.id] := by simp
  have hymem : (p.children.get ⟨i, hi⟩).id ∈ preorderIds p.children :=
    id_mem_preorder _ _ (List.get_mem _ _ _)
  have hyB : (p.children.get ⟨i, hi⟩).id ∈ preorderIds p.children ++ l₂ :=
    List.mem_append.mpr (Or.inl hymem)
  have hnd' := hform ▸ hnd
  have hdisj := (List.nodup_append.mp hnd').2.2
  have hy : (p.children.get ⟨i, hi⟩).id ∉ l₁ ++ [p.id] := fun hmem2 => hdisj hmem2 hyB
  rw [hform]
  exact indexOf_append_lt _ _ _ _ hx hy

/-- In a duplicate-free pre-order listing, consecutive children of a parent
keep their model order. -/
theorem preorder_sibling_before (cs : List TNode) (p : TNode)
    (hnd : (preorderIds cs).Nodup) (hp : OccursIn p cs)
    (i : Nat) (hi : i + 1 < p.children.length) :
    List.indexOf (p.children.get ⟨i, Nat.lt_of_succ_lt hi⟩).id (preorderIds cs) <
      List.indexOf (p.children.get ⟨i + 1, hi⟩).id (preorderIds cs) := by
  obtain ⟨l₁, l₂, he⟩ := occurs_infix p cs hp
  obtain ⟨A, B, hAB, hmem, hafter⟩ := preorder_get_split p.children i (Nat.lt_of_succ_lt hi)
  have hform : preorderIds cs = (l₁ ++ p.id :: A) ++ (B ++ l₂) := by
    simp [he, hAB]
  have hx : (p.children.get ⟨i, Nat.lt_of_succ_lt hi⟩).id ∈ l₁ ++ p.id :: A := by
    simp only [List.mem_append, List.mem_cons]
    exact Or.inr (Or.inr hmem)
  have hyB : (p.children.get ⟨i + 1, hi⟩).id ∈ B ++ l₂ :=
    List.mem_append.mpr (Or.inl (hafter (i + 1) hi (by omega)))
  have hnd' := hform ▸ hnd
  have hdisj := (List.nodup_append.mp hnd').2.2
  have hy := fun hmem2 => hdisj hmem2 hyB
  rw [hform]
  exact indexOf_append_lt _ _ _ _ hx hy

/-- C3. After installing a model with pairwise-distinct nodes, the registry
entries appear in pre-order: every parent occurring in the model is
appended before each of its children, and consecutive children are
appended in model order (positions measured by `List.indexOf` over the
registry's node components). -/
theorem c3_preorder_registration (tm : List TNode) (s : CtrlState) (p : TNode)
    (hnd : (preorderIds tm).Nodup) (hp : OccursIn p tm) :
    (∀ (i : Nat) (hi : i < p.children.length),
      List.indexOf p.id (((SetTreeModel tm s).insertedItems).map Prod.fst) <
        List.indexOf (p.children.get ⟨i, hi⟩).id
          (((SetTreeModel tm s).insertedItems).map Prod.fst)) ∧
    (∀ (i : Nat) (hi : i + 1 < p.children.length),
      List.indexOf (p.children.get ⟨i, Nat.lt_of_succ_lt hi⟩).id
          (((SetTreeModel tm s).insertedItems).map Prod.fst) <
        List.indexOf (p.children.get ⟨i + 1, hi⟩).id
          (((SetTreeModel tm s).insertedItems).map Prod.fst)) := by
  rw [setTreeModel_ids]
  exact ⟨preorder_parent_before_child tm p hnd hp, preorder_sibling_before tm p hnd hp⟩

/-- C3 witness: model with one root (identity 1) and two children
(identities 2 and 3); the parent registers before each child and the
children register in order. -/
theorem c3_preorder_registration_witness :
    (preorderIds [TNode.mk 1 false false [TNode.mk 2 false false [],
        TNode.mk 3 false false []]]).Nodup ∧
    OccursIn (TNode.mk 1 false false [TNode.mk 2 false false [], TNode.mk 3 false false []])
      [TNode.mk 1 false false [TNode.mk 2 false false [], TNode.mk 3 false false []]] ∧
    List.indexOf 1 (((SetTreeModel [TNode.mk 1 false false [TNode.mk 2 false false [],
        TNode.mk 3 false false []]] {}).insertedItems).map Prod.fst) <
      List.indexOf 2 (((SetTreeModel [TNode.mk 1 false false [TNode.mk 2 false false [],
        TNode.mk 3 false false []]] {}).insertedItems).map Prod.fst) ∧
    List.indexOf 2 (((SetTreeModel [TNode.mk 1 false false [TNode.mk 2 false false [],
        TNode.mk 3 false false []]] {}).insertedItems).map Prod.fst) <
      List.indexOf 3 (((SetTreeModel [TNode.mk 1 false false [TNode.mk 2 false false [],
        TNode.mk 3 false false []]] {}).insertedItems).map Prod.fst) := by
  have hnd : (preorderIds [TNode.mk 1 false false [TNode.mk 2 false false [],
      TNode.mk 3 false false []]]).Nodup := by
    simp [preorderIds]
  have hp : OccursIn (TNode.mk 1 false false [TNode.mk 2 false false [],
      TNode.mk 3 false false []])
      [TNode.mk 1 false false [TNode.mk 2 false false [], TNode.mk 3 false false []]] :=
    OccursIn.here _
  have h := c3_preorder_registration _ {} _ hnd hp
  refine ⟨hnd, hp, ?_, ?_⟩
  · have h1 := h.1 0 (by simp [TNode.children])
    simpa [TNode.children, TNode.id] using h1
  · have h2 := h.2 0 (by simp [TNode.children])
    simpa [TNode.children, TNode.id] using h2

end Sumatra
